import Mathlib

/-!
Verification development for the gyaml path-resolution library (gyaml.go).

The library resolves dot-notation paths against an untyped tree produced by
the external YAML parser (gopkg.in/yaml.v3, a black box here).  We embed the
tree as the inductive `YVal`, the public `Result` struct as the inductive
`Result` (the Go struct's `Type` field discriminates; the constructor's
arguments are the fields that are meaningful for that type), and translate
the resolver functions of gyaml.go one by one.

Modelling conventions:
* Go `float64` values are modelled as exact rationals (`Rat`).  The values
  stored in the tree by the external parser are taken as given; wherever
  the library itself converts to `float64` (`strconv.ParseFloat`, the
  `float64(i)` widening in `compareNumbers`), IEEE-754 binary64
  round-to-nearest-even is applied (`roundToF64`), `ParseFloat`'s
  `inf`/`nan` special forms produce the extended values of `GoFloat`, and
  an over-range decimal fails the `err == nil` checks just as `ErrRange`
  does.  `strconv.FormatFloat(_, 'g', -1, 64)` is modelled with its
  exponent-notation rule (exponent below -4 or at least 21).
* Go's runtime-typed `interface{}` switches become matches on `YVal`.
* `map[string]interface{}` is modelled as an association list with
  first-binding-wins lookup (Go maps have unique keys; the source's
  `map[interface{}]interface{}` branch behaves identically for string keys).
* String scanning helpers (`strings.Split`, `HasPrefix`, `TrimSpace`, ...)
  are re-implemented structurally over `List Char` so that every definition
  reduces inside the kernel; each models the Go function named in its
  doc string.
* The recursive resolver takes an explicit `fuel` argument bounding the
  recursion depth (the Go recursion terminates because every recursive call
  strictly shrinks the remaining path); `resolveParts` supplies
  `segMeasure parts + 1`, which is a strict upper bound on the depth, so the
  fuel-exhaustion branch is unreachable from the public entry points.
-/

attribute [local semireducible] Rat.add Rat.mul Rat.inv Rat.sub

set_option maxRecDepth 16000

namespace GYaml

/-- Untyped document tree: the possible results of `yaml.Unmarshal` into
`interface{}` (nil, bool, integers, floats, string, sequence, mapping). -/
inductive YVal where
  | ynull
  | ybool (b : Bool)
  | yint (n : Int)
  | yfloat (q : Rat)
  | ystr (s : String)
  | yarr (xs : List YVal)
  | ymap (kvs : List (String × YVal))

/-- Lookup in a Go `map[string]interface{}`, modelled on an association list
(first binding wins; real Go maps have unique keys). -/
def lookupStr (k : String) : List (String × YVal) → Option YVal
  | [] => none
  | (k', v) :: rest => if k' = k then some v else lookupStr k rest

/-- Models `strings.Split(s, sep)` for a one-character separator, on the
character list: all substrings between occurrences, keeping empties. -/
def splitOnChar (c : Char) : List Char → List (List Char)
  | [] => [[]]
  | x :: xs =>
    let r := splitOnChar c xs
    if x = c then [] :: r
    else
      match r with
      | ys :: rest => (x :: ys) :: rest
      | [] => [[x]]

/-- Models `strings.Split(path, ".")`. -/
def splitDots (s : String) : List String :=
  (splitOnChar '.' s.data).map fun l => String.mk l

/-- Models `strings.HasPrefix(s, pre)`. -/
def strHasPrefix (s pre : String) : Bool :=
  pre.data.isPrefixOf s.data

/-- Models `strings.HasSuffix(s, suf)`. -/
def strHasSuffix (s suf : String) : Bool :=
  suf.data.reverse.isPrefixOf s.data.reverse

/-- Models `s[n:]` on a Go string (drop the first `n` characters; the source
only slices at ASCII boundaries). -/
def strDrop (s : String) (n : Nat) : String :=
  String.mk (s.data.drop n)

/-- Drop the last `n` characters (the source's `part[2 : len(part)-1]` upper
bound). -/
def strDropRight (s : String) (n : Nat) : String :=
  String.mk (s.data.take (s.data.length - n))

/-- Models `unicode.IsSpace` (the Unicode White_Space property, which
`strings.TrimSpace` trims): tab through carriage return, space, NEL,
no-break space, Ogham space mark, the U+2000 spaces, line and paragraph
separators, narrow no-break space, medium mathematical space, and
ideographic space. -/
def goIsSpace (c : Char) : Bool :=
  decide (c = ' ' ∨ ('\t' ≤ c ∧ c ≤ '\r') ∨ c = '\u0085' ∨ c = '\u00A0'
    ∨ c = '\u1680' ∨ ('\u2000' ≤ c ∧ c ≤ '\u200A') ∨ c = '\u2028'
    ∨ c = '\u2029' ∨ c = '\u202F' ∨ c = '\u205F' ∨ c = '\u3000')

/-- Models `strings.TrimSpace`. -/
def strTrim (s : String) : String :=
  String.mk (((s.data.dropWhile goIsSpace).reverse.dropWhile
      goIsSpace).reverse)

/-- Models `strings.Trim(s, "\"'")`: remove all leading and trailing double
or single quotes. -/
def trimQuotes (s : String) : String :=
  let p : Char → Bool := fun c => c = '"' ∨ c = '\''
  String.mk (((s.data.dropWhile p).reverse.dropWhile p).reverse)

/-- Split a character list at the first occurrence of `sep` (nonempty):
`some (before, after)` when `sep` occurs, else `none`.  Models the
`strings.Contains` + `strings.SplitN(s, sep, 2)` pair of the query parser. -/
def splitFirst (sep : List Char) : List Char → Option (List Char × List Char)
  | [] => if sep = [] then some ([], []) else none
  | x :: xs =>
    if sep.isPrefixOf (x :: xs) then some ([], (x :: xs).drop sep.length)
    else
      match splitFirst sep xs with
      | some (a, b) => some (x :: a, b)
      | none => none

/-- Numeric value of a digit list (most significant first). -/
def digitsVal (l : List Char) : Nat :=
  l.foldl (fun a c => a * 10 + (c.toNat - 48)) 0

/-- A nonempty all-digit list parsed as a natural number. -/
def digitsToNat (l : List Char) : Option Nat :=
  if l ≠ [] ∧ l.all Char.isDigit then some (digitsVal l) else none

/-- Split an optional leading sign: `(negative, rest)`. -/
def splitSign : List Char → Bool × List Char
  | '+' :: cs => (false, cs)
  | '-' :: cs => (true, cs)
  | cs => (false, cs)

/-- Models `strconv.ParseInt(s, 10, 64)`: optional sign, decimal digits,
result within the int64 range (no underscores in base 10). -/
def goParseInt (s : String) : Option Int :=
  let (neg, ds) := splitSign s.data
  match digitsToNat ds with
  | none => none
  | some n =>
    let v : Int := if neg then -(n : Int) else (n : Int)
    if -(2 ^ 63 : Int) ≤ v ∧ v < 2 ^ 63 then some v else none

/-- Models `strconv.Atoi` (equivalent to `ParseInt(s, 10, 0)` with 64-bit
`int`). -/
def goAtoi (s : String) : Option Int :=
  goParseInt s

/-- The value `strconv.ParseInt(s, 10, 64)` returns when its error is
discarded (as `Result.Int()` does on its String branch): 0 on a syntax
error, and on a range error the maximum-magnitude int64 of the
appropriate sign. -/
def goParseIntValue (s : String) : Int :=
  let (neg, ds) := splitSign s.data
  match digitsToNat ds with
  | none => 0
  | some n =>
    if neg then
      if (n : Int) ≤ 2 ^ 63 then -(n : Int) else -(2 ^ 63)
    else
      if (n : Int) < 2 ^ 63 then (n : Int) else 2 ^ 63 - 1

/-- The value `strconv.ParseUint(s, 10, 64)` returns when its error is
discarded: 0 on a syntax error, the maximum uint64 on a range error. -/
def goParseUintValue (s : String) : Nat :=
  match digitsToNat s.data with
  | none => 0
  | some n => if n < 2 ^ 64 then n else 2 ^ 64 - 1

/-- A parsed `float64`: finite values (exact rationals after binary64
rounding), the signed infinities of the `inf`/`infinity` forms, and NaN. -/
inductive GoFloat where
  | finite (q : Rat)
  | inf (neg : Bool)
  | nan
deriving DecidableEq

/-- Fuel-bounded exponentiation by squaring (recursion depth logarithmic
in the exponent, so large powers reduce inside the kernel). -/
def powFuel (b : Nat) : Nat → Nat → Nat
  | 0, _ => 1
  | f + 1, e =>
    if e = 0 then 1
    else
      let s := powFuel b f (e / 2)
      if e % 2 = 0 then s * s else b * (s * s)

/-- b^e on naturals, via squaring. -/
def natPow (b e : Nat) : Nat := powFuel b (e + 1) e

/-- 2^e as a rational, for a possibly negative integer `e`. -/
def pow2Rat (e : Int) : Rat :=
  if 0 ≤ e then ((natPow 2 e.toNat : Nat) : Rat)
  else 1 / ((natPow 2 (-e).toNat : Nat) : Rat)

/-- Fuel-bounded halving loop computing the floor of a natural number's
base-2 logarithm (the fuel, at least the bit length, is supplied by the
caller). -/
def log2Fuel : Nat → Nat → Nat
  | 0, _ => 0
  | f + 1, n => if 2 ≤ n then log2Fuel f (n / 2) + 1 else 0

/-- Floor of the base-2 logarithm of a positive natural number. -/
def natLog2 (n : Nat) : Nat := log2Fuel n n

/-- Floor of the base-2 logarithm of a positive rational. -/
def floorLog2 (q : Rat) : Int :=
  let e0 : Int := (natLog2 q.num.natAbs : Int) - (natLog2 q.den : Int)
  if pow2Rat (e0 + 1) ≤ q then e0 + 1
  else if pow2Rat e0 ≤ q then e0
  else e0 - 1

/-- Round a nonnegative rational to the nearest integer, ties to even. -/
def roundHalfEven (r : Rat) : Int :=
  let n := r.floor
  let frac := r - (n : Rat)
  if frac < 1 / 2 then n
  else if 1 / 2 < frac then n + 1
  else if n % 2 = 0 then n else n + 1

/-- IEEE-754 binary64 rounding of a rational: round to 53 significant
bits (values below 2^-1022 round at the fixed subnormal quantum 2^-1074),
to nearest with ties to even.  The rounded magnitude reaches 2^1024
exactly when the conversion overflows the binary64 range. -/
def roundToF64 (q : Rat) : Rat :=
  if q = 0 then 0
  else
    let aq : Rat := if q < 0 then -q else q
    let sh : Int := max (floorLog2 aq - 52) (-1074)
    let m := roundHalfEven (aq * pow2Rat (-sh))
    let r : Rat := (m : Rat) * pow2Rat sh
    if q < 0 then -r else r

/-- Lower-case an ASCII letter. -/
def lowerAscii (c : Char) : Char :=
  if 'A' ≤ c ∧ c ≤ 'Z' then Char.ofNat (c.toNat + 32) else c

/-- The special-form recognition of `strconv.ParseFloat`: an optionally
signed `inf` or `infinity`, or an unsigned `nan`, case-insensitively (a
sign before `nan` is not accepted — the source's `special` only reaches
the infinity comparisons after a sign). -/
def parseSpecial (l : List Char) : Option GoFloat :=
  let (neg, rest) := splitSign l
  let low := rest.map lowerAscii
  if low = ['i', 'n', 'f'] ∨ low = ['i', 'n', 'f', 'i', 'n', 'i', 't', 'y'] then
    some (.inf neg)
  else if l.map lowerAscii = ['n', 'a', 'n'] then some .nan
  else none

/-- Go literal digit syntax: a nonempty digit sequence in which an
underscore may appear only between two digits; returns the digits with
the underscores removed. -/
def digitsUnd (isD : Char → Bool) : List Char → Option (List Char)
  | [] => none
  | [c] => if isD c then some [c] else none
  | c :: d :: r2 =>
    if isD c then
      if d = '_' then (digitsUnd isD r2).map (c :: ·)
      else (digitsUnd isD (d :: r2)).map (c :: ·)
    else none

/-- As `digitsUnd`, but an empty sequence is allowed (and empty). -/
def digitsUndOpt (isD : Char → Bool) (l : List Char) : Option (List Char) :=
  if l = [] then some [] else digitsUnd isD l

/-- Hexadecimal digit test. -/
def isHexDigitCh (c : Char) : Bool :=
  c.isDigit || decide ('a' ≤ c ∧ c ≤ 'f') || decide ('A' ≤ c ∧ c ≤ 'F')

/-- Value of a hexadecimal digit. -/
def hexDigitVal (c : Char) : Nat :=
  if c.isDigit then c.toNat - 48
  else if 'a' ≤ c ∧ c ≤ 'f' then c.toNat - 87
  else c.toNat - 55

/-- Numeric value of a hexadecimal digit list (most significant first). -/
def hexVal (l : List Char) : Nat :=
  l.foldl (fun a c => a * 16 + hexDigitVal c) 0

/-- Split at the first occurrence of either marker character (used for
the `e`/`E` decimal and `p`/`P` hexadecimal exponent markers). -/
def splitAtEither (x y : Char) : List Char → List Char × Option (List Char)
  | [] => ([], none)
  | c :: cs =>
    if c = x ∨ c = y then ([], some cs)
    else
      let (a, b) := splitAtEither x y cs
      (c :: a, b)

/-- Exponent suffix: an optional sign and underscore-separated decimal
digits. -/
def parseExpDigits (ec : List Char) : Option Int :=
  let (eneg, eds) := splitSign ec
  match digitsUnd Char.isDigit eds with
  | some ds => some (if eneg then -(digitsVal ds : Int) else (digitsVal ds : Int))
  | none => none

/-- The exact rational value of an unsigned decimal mantissa-and-exponent
form `digits [. digits] ([eE] [+-] digits)?` with underscore separators,
or `none` on a syntax error. -/
def parseDecFloat (l : List Char) : Option Rat :=
  let (mant, expPart) := splitAtEither 'e' 'E' l
  let expVal : Option Int :=
    match expPart with
    | none => some 0
    | some ec => parseExpDigits ec
  match expVal with
  | none => none
  | some e =>
    let (ip, fp) :=
      match splitFirst ['.'] mant with
      | some (a, b) => (a, b)
      | none => (mant, [])
    match digitsUndOpt Char.isDigit ip, digitsUndOpt Char.isDigit fp with
    | some ipd, some fpd =>
      if ipd = [] ∧ fpd = [] then none
      else
        some (((digitsVal ipd : Rat)
            + (digitsVal fpd : Rat) / ((natPow 10 fpd.length : Nat) : Rat)) *
          (if 0 ≤ e then ((natPow 10 e.toNat : Nat) : Rat)
           else 1 / ((natPow 10 (-e).toNat : Nat) : Rat)))
    | _, _ => none

/-- The exact rational value of an unsigned hexadecimal float body (after
the `0x` prefix): hex mantissa — optionally led by one underscore — then a
mandatory `p`/`P` power-of-two exponent, or `none` on a syntax error. -/
def parseHexFloat (l : List Char) : Option Rat :=
  let (mant, expPart) := splitAtEither 'p' 'P' l
  match expPart with
  | none => none
  | some ec =>
    match parseExpDigits ec with
    | none => none
    | some e =>
      let (led, mant2) :=
        match mant with
        | '_' :: r => (true, r)
        | m => (false, m)
      let (ip, fp) :=
        match splitFirst ['.'] mant2 with
        | some (a, b) => (a, b)
        | none => (mant2, [])
      match digitsUndOpt isHexDigitCh ip, digitsUndOpt isHexDigitCh fp with
      | some ipd, some fpd =>
        if (ipd = [] ∧ fpd = []) ∨ (led ∧ ip = []) then none
        else
          some (((hexVal ipd : Rat)
              + (hexVal fpd : Rat) / ((natPow 16 fpd.length : Nat) : Rat)) *
            pow2Rat e)
      | _, _ => none

/-- Models `strconv.ParseFloat(s, 64)` under `err == nil`: the special
`inf`/`infinity`/`nan` forms; decimal and hexadecimal literals (with Go's
underscore rules), rounded to binary64; `none` when the syntax is invalid
or the value overflows the binary64 range (Go's `ErrRange`, which the
callers' `err == nil` checks reject).  Underflow rounds to zero with no
error, as in Go. -/
def goParseFloat (s : String) : Option GoFloat :=
  match parseSpecial s.data with
  | some f => some f
  | none =>
    let (neg, l) := splitSign s.data
    let exact? : Option Rat :=
      match l with
      | '0' :: x :: lrest =>
        if x = 'x' ∨ x = 'X' then parseHexFloat lrest
        else parseDecFloat l
      | _ => parseDecFloat l
    match exact? with
    | none => none
    | some v =>
      let r := roundToF64 (if neg then -v else v)
      if r ≤ -((natPow 2 1024 : Nat) : Rat) ∨ ((natPow 2 1024 : Nat) : Rat) ≤ r
      then none
      else some (.finite r)

/-- Less-than on parsed floats, with IEEE semantics: NaN is incomparable,
-Inf below everything else, +Inf above everything else. -/
def gfLt : GoFloat → GoFloat → Bool
  | .nan, _ => false
  | _, .nan => false
  | .inf true, .inf true => false
  | .inf true, _ => true
  | _, .inf true => false
  | .inf false, _ => false
  | .finite _, .inf false => true
  | .finite a, .finite b => decide (a < b)

/-- Least `k` (up to the given recursion bound) with `q * 10^k` integral. -/
def findPow10 : Nat → Rat → Option Nat
  | 0, q => if q.den = 1 then some 0 else none
  | f + 1, q => if q.den = 1 then some 0 else (findPow10 f (q * 10)).map (· + 1)

/-- Left-pad a digit list with zeros to length at least `n`. -/
def padLeftZeros (l : List Char) (n : Nat) : List Char :=
  List.replicate (n - l.length) '0' ++ l

/-- Strip trailing zero digits. -/
def stripTrailingZeros (l : List Char) : List Char :=
  (l.reverse.dropWhile fun c => c = '0').reverse

/-- The exponent suffix of `FormatFloat`'s `%e` form: a sign and at least
two digits. -/
def fmtEexp (e : Int) : String :=
  let ds := toString e.natAbs
  (if e < 0 then "-" else "+") ++ (if e.natAbs < 10 then "0" ++ ds else ds)

/-- Models `strconv.FormatFloat(f, 'g', -1, 64)` on the rational value:
the minimal decimal digits, in `%e` exponent form when the decimal
exponent is below -4 or at least 21 (the source's shortest-`%g` rule) and
in fixed form otherwise.  Rationals without a finite decimal expansion
(impossible for actual binary64 values) fall back to the raw rational
rendering. -/
def fmtFloat (q : Rat) : String :=
  if q = 0 then "0"
  else
    let aq : Rat := if q.num < 0 then -q else q
    match findPow10 1100 aq with
    | none => toString q
    | some k =>
      let n10 : Int := (aq * ((natPow 10 k : Nat) : Rat)).num
      let s := (toString n10.natAbs).data
      let digits := stripTrailingZeros s
      let e : Int := ((s.length : Int) - (k : Int)) - 1
      let sign := if q.num < 0 then "-" else ""
      if e < -4 ∨ 21 ≤ e then
        sign ++ String.mk (digits.take 1)
          ++ (if 1 < digits.length then "." ++ String.mk (digits.drop 1) else "")
          ++ "e" ++ fmtEexp e
      else if q.den = 1 then sign ++ String.mk s
      else
        let ds2 := padLeftZeros s (k + 1)
        let ip := ds2.take (ds2.length - k)
        let fp := ds2.drop (ds2.length - k)
        sign ++ String.mk ip ++ "." ++ String.mk fp

/-- Insert a (key, rendered value) pair into a key-sorted list (ascending). -/
def insertKeyed (p : String × String) : List (String × String) → List (String × String)
  | [] => [p]
  | q :: rest => if p.1 ≤ q.1 then p :: q :: rest else q :: insertKeyed p rest

/-- Sort rendered map entries by key, as `fmt` does when printing a Go map. -/
def sortByKey : List (String × String) → List (String × String)
  | [] => []
  | p :: rest => insertKeyed p (sortByKey rest)

/-- Join rendered map entries as `k1:v1 k2:v2 ...`. -/
def joinPairs : List (String × String) → String
  | [] => ""
  | [(k, v)] => k ++ ":" ++ v
  | (k, v) :: rest => k ++ ":" ++ v ++ " " ++ joinPairs rest

mutual
/-- Models `fmt.Sprintf("%v", v)` on a decoded tree value: `<nil>` for nil,
`true`/`false`, decimal integers, `FormatFloat('g', -1, 64)` for floats,
strings verbatim, `[e1 e2 ...]` for slices, and `map[k1:v1 k2:v2 ...]`
with sorted keys for maps. -/
def goFmt : YVal → String
  | .ynull => "<nil>"
  | .ybool true => "true"
  | .ybool false => "false"
  | .yint n => toString n
  | .yfloat q => fmtFloat q
  | .ystr s => s
  | .yarr xs => "[" ++ goFmtList xs ++ "]"
  | .ymap kvs => "map[" ++ joinPairs (sortByKey (goFmtPairs kvs)) ++ "]"

/-- Space-separated rendering of slice elements. -/
def goFmtList : List YVal → String
  | [] => ""
  | [x] => goFmt x
  | x :: xs => goFmt x ++ " " ++ goFmtList xs

/-- Render each map entry's value, keeping the keys. -/
def goFmtPairs : List (String × YVal) → List (String × String)
  | [] => []
  | (k, v) :: rest => (k, goFmt v) :: goFmtPairs rest
end

/-- The public `Result` struct of gyaml.go.  The Go struct stores a `Type`
tag plus `Raw`, `Str`, `Num`, `Index` fields; each constructor here carries
the fields that are meaningful for that tag (the others are zero in every
`Result` the library builds).  `ryaml` models `Type: YAML` and stores the
parse of the retained `Raw` text (the library's container `Raw` strings are
always re-parseable: they are either input documents that already parsed or
`yaml.Marshal` output). -/
inductive Result where
  | rnull
  | rfalse
  | rtrue
  | rnum (num : Rat) (raw : String)
  | rstr (s : String)
  | ryaml (doc : YVal)

/-- Models `Result.Exists()`: `t.Type != Null`. -/
def Result.Exists : Result → Bool
  | .rnull => false
  | _ => true

/-- Models `Result.Value()`: nil for Null, booleans, `t.Num` (a float64)
for numbers, `t.Str` for strings, and the re-parse of `t.Raw` for
containers. -/
def Result.Value : Result → YVal
  | .rnull => .ynull
  | .rfalse => .ybool false
  | .rtrue => .ybool true
  | .rnum num _ => .yfloat num
  | .rstr s => .ystr s
  | .ryaml d => d

/-- Truncation of a float toward zero, as Go's `int64(f)` conversion does
for in-range values (out-of-range conversions are not modelled). -/
def truncRat (q : Rat) : Int :=
  if q < 0 then q.ceil else q.floor

/-- Models `Result.Int()`: `True` gives 1; strings parse as base-10 int64
with the error discarded, so a syntax error gives 0 and a range error the
clamped extreme; numbers prefer parsing the space-trimmed `Raw` text as an
int64 (under `err == nil`, so a range error falls through) and otherwise
truncate the stored float; all else 0. -/
def Result.Int : Result → Int
  | .rtrue => 1
  | .rstr s => goParseIntValue s
  | .rnum num raw =>
    if raw ≠ "" then
      match goParseInt (strTrim raw) with
      | some n => n
      | none => truncRat num
    else truncRat num
  | _ => 0

/-- Models `Result.Uint()`: `True` gives 1; strings parse as base-10
uint64 with the error discarded (0 on a syntax error, the maximum uint64
on a range error); numbers give 0 when negative and otherwise the
truncated stored float (`Raw` is not consulted); all else 0. -/
def Result.Uint : Result → Nat
  | .rtrue => 1
  | .rstr s => goParseUintValue s
  | .rnum num _ => if num < 0 then 0 else num.floor.toNat
  | _ => 0

/-- Models `makeResult(value)`: classify a decoded value into a `Result`.
Integer kinds retain `FormatInt` text in `Raw`; floats retain
`FormatFloat('g', -1, 64)` text; complex values are marshalled back to YAML
and wrapped as a container (`yaml.Marshal` cannot fail on decoded trees). -/
def makeResult : YVal → Result
  | .ynull => .rnull
  | .ybool true => .rtrue
  | .ybool false => .rfalse
  | .ystr s => .rstr s
  | .yint n => .rnum (n : Rat) (toString n)
  | .yfloat q => .rnum q (fmtFloat q)
  | v => .ryaml v

/-- The empty-path branch of `getByPath`: nil gives Null, scalars go through
`makeResult`, and complex values are marshalled back to YAML text and
wrapped as a container. -/
def emptyPathResult : YVal → Result
  | .ynull => .rnull
  | .ybool b => makeResult (.ybool b)
  | .yint n => makeResult (.yint n)
  | .yfloat q => makeResult (.yfloat q)
  | .ystr s => makeResult (.ystr s)
  | v => .ryaml v

/-- The operator list of `handleArrayQuery`, in source order (two-character
operators before their one-character prefixes). -/
def queryOps : List String := [">=", "<=", "!=", ">", "<", "="]

/-- The operator scan of `handleArrayQuery`: for the first listed operator
occurring in the query, split at its first occurrence
(`strings.SplitN(query, op, 2)`), trim the key, and trim whitespace and
surrounding quotes from the literal. -/
def findOp (query : String) : List String → Option (String × String × String)
  | [] => none
  | op :: rest =>
    match splitFirst op.data query.data with
    | some (before, after) =>
      some (strTrim (String.mk before), op,
        trimQuotes (strTrim (String.mk after)))
    | none => findOp query rest

/-- Predicate parsing of `handleArrayQuery`: `some (key, operator, value)`,
or `none` when no operator occurs (the source's `operator == ""` fallback
then also finds no `=` and returns Null). -/
def parseQuery (query : String) : Option (String × String × String) :=
  findOp query queryOps

/-- The value-widening switch of `compareNumbers`: integer kinds convert
with `float64(i)` (binary64 rounding — the `ParseInt`/`ParseUint`
re-parses of their own decimal renderings in the source always succeed),
floats are already `float64` values of the tree; everything else formats
with `%v` and goes through `ParseFloat`. -/
def valAsFloat : YVal → Option GoFloat
  | .yint n => some (.finite (roundToF64 (n : Rat)))
  | .yfloat q => some (.finite q)
  | v => goParseFloat (goFmt v)

/-- Models `compareNumbers(val, expected)`: widen both sides to a float;
1 when `val` is larger, -1 when smaller, 0 when neither is larger (equal,
a NaN side, or a side that fails to parse — "not comparable"). -/
def compareNumbers (val : YVal) (expectedStr : String) : Int :=
  match valAsFloat val with
  | none => 0
  | some valFloat =>
    match goParseFloat expectedStr with
    | none => 0
    | some expectedFloat =>
      if gfLt expectedFloat valFloat then 1
      else if gfLt valFloat expectedFloat then -1
      else 0

/-- Models `matchesCondition(val, operator, expected)`: `=`/`!=` compare the
`%v` rendering of `val` with the literal exactly; the four ordering
operators compare the sign of `compareNumbers`. -/
def matchesCondition (val : YVal) (operator expected : String) : Bool :=
  let valStr := goFmt val
  if operator = "=" then valStr == expected
  else if operator = "!=" then !(valStr == expected)
  else if operator = ">" then decide (0 < compareNumbers val expected)
  else if operator = "<" then decide (compareNumbers val expected < 0)
  else if operator = ">=" then decide (0 ≤ compareNumbers val expected)
  else if operator = "<=" then decide (compareNumbers val expected ≤ 0)
  else false

/-- The element loop of `handleArrayQuery`: mapping elements look up the
key (elements lacking it are skipped); non-mapping elements are compared
directly when the key is empty; the first satisfying element is returned
via `makeResult`, else Null. -/
def queryLoop (key operator value : String) : List YVal → Result
  | [] => .rnull
  | item :: more =>
    match item with
    | .ymap obj =>
      match lookupStr key obj with
      | some v =>
        if matchesCondition v operator value then makeResult item
        else queryLoop key operator value more
      | none => queryLoop key operator value more
    | _ =>
      if key = "" ∧ operator ≠ "" then
        if matchesCondition item operator value then makeResult item
        else queryLoop key operator value more
      else queryLoop key operator value more

/-- Models `handleArrayQuery(current, query)`: Null unless `current` is a
sequence and the query parses; otherwise the first matching element. -/
def handleArrayQuery (current : YVal) (query : String) : Result :=
  match current with
  | .yarr arr =>
    match parseQuery query with
    | some (key, operator, value) => queryLoop key operator value arr
    | none => .rnull
  | _ => .rnull

/-- The collection step of `handleArrayOperation`: keep the `Value()` of
each sub-resolution that exists, in order. -/
def collectExisting (rs : List Result) : List YVal :=
  (rs.filter fun r => r.Exists).map fun r => r.Value

/-- Depth bound for the resolver's recursion on a segment list: total
segment text length plus segment count.  Every recursive call of
`resolvePartsF` strictly decreases this measure, so `segMeasure parts + 1`
units of fuel never run out. -/
def segMeasure (parts : List String) : Nat :=
  (parts.map String.length).sum + parts.length

/-- The segment loop of `getByPath` (and the `handleArrayOperation` bodies
it calls), with explicit fuel bounding the recursion depth.  Branches, in
source order, per segment:
empty segments are skipped; `#` as the literally last segment yields the
element count of a sequence or mapping (Null otherwise) and otherwise
broadcasts the remaining path over a sequence (`handleArrayOperation` with
the rejoined remainder, which is `""` exactly when the remainder is a
single empty segment — re-splitting the rejoined dot-free segments yields
them back); `#(...)` evaluates the query and either returns the match or
continues resolving the remaining path against it (`getByPath` on the
re-parsed container text or on `Value()`); other `#`-prefixed segments
probe the current mapping for the literal key and otherwise broadcast the
segment minus its `#` (`handleArrayOperation(current, part[1:])`, whose
payload is one nonempty dot-free segment); integer segments index
sequences (Null on any other type or out of range); everything else is a
mapping key (Null on other types or a missing key).  At the end the
remaining value is classified by `makeResult`. -/
def resolvePartsF : Nat → YVal → List String → Result
  | 0, _, _ => .rnull
  | fuel + 1, current, parts =>
    match parts with
    | [] => makeResult current
    | part :: rest =>
      if part = "" then resolvePartsF fuel current rest
      else if part = "#" then
        if rest = [] then
          match current with
          | .yarr v => .rnum ((v.length : Nat) : Rat) ""
          | .ymap m => .rnum ((m.length : Nat) : Rat) ""
          | _ => .rnull
        else
          match current with
          | .yarr arr =>
            if rest = [""] then makeResult (.yarr arr)
            else
              makeResult (.yarr (collectExisting
                (arr.map fun item => resolvePartsF fuel item rest)))
          | _ => .rnull
      else if strHasPrefix part "#(" && strHasSuffix part ")" then
        let query := strDropRight (strDrop part 2) 1
        let result := handleArrayQuery current query
        if !result.Exists then result
        else if rest = [] then result
        else
          let parsed : YVal :=
            match result with
            | .ryaml d => d
            | r => r.Value
          if rest = [""] then emptyPathResult parsed
          else resolvePartsF fuel parsed rest
      else if strHasPrefix part "#" then
        match current with
        | .ymap obj =>
          match lookupStr part obj with
          | some v => resolvePartsF fuel v rest
          | none => .rnull
        | .yarr arr =>
          makeResult (.yarr (collectExisting
            (arr.map fun item => resolvePartsF fuel item [strDrop part 1])))
        | _ => .rnull
      else
        match goAtoi part with
        | some idx =>
          match current with
          | .yarr v =>
            if idx < 0 ∨ (v.length : Int) ≤ idx then .rnull
            else resolvePartsF fuel (v.getD idx.toNat .ynull) rest
          | _ => .rnull
        | none =>
          match current with
          | .ymap obj =>
            match lookupStr part obj with
            | some val => resolvePartsF fuel val rest
            | none => .rnull
          | _ => .rnull

/-- The segment loop of `getByPath`, at sufficient fuel. -/
def resolveParts (root : YVal) (parts : List String) : Result :=
  resolvePartsF (segMeasure parts + 1) root parts

/-- Models `getByPath(root, path)`. -/
def getByPath (root : YVal) (path : String) : Result :=
  if path = "" then emptyPathResult root
  else resolveParts root (splitDots path)

/-- The external YAML parser (`yaml.Unmarshal` of gopkg.in/yaml.v3), a
black box: document text to a decoded tree, or a syntax failure. -/
def YParser : Type := String → Option YVal

/-- Models `Get(yamlStr, path)` over a parser oracle: Null for empty text
or a parse failure; the whole document as a container for an empty path;
otherwise `getByPath` on the decoded tree. -/
def Get (p : YParser) (yamlStr path : String) : Result :=
  if yamlStr = "" then .rnull
  else
    match p yamlStr with
    | none => .rnull
    | some root => if path = "" then .ryaml root else getByPath root path

/-- Models `Parse(yamlStr)`: Null for empty text or a parse failure, else a
container `Result` whose retained `Raw` text is the document (parsing to
`root`). -/
def Parse (p : YParser) (yamlStr : String) : Result :=
  if yamlStr = "" then .rnull
  else
    match p yamlStr with
    | none => .rnull
    | some root => .ryaml root

/-- Models `Valid(yamlStr)`: true iff `yaml.Unmarshal` reports no error. -/
def Valid (p : YParser) (yamlStr : String) : Bool :=
  (p yamlStr).isSome

/-- Models `Result.Get(path)`: Null unless the receiver is a container;
otherwise `Get(t.Raw, path)` — the container's retained `Raw` text is
nonempty and re-parses to the stored document, so this is the whole
document for an empty path and `getByPath` otherwise. -/
def Result.Get (t : Result) (path : String) : Result :=
  match t with
  | .ryaml doc => if path = "" then .ryaml doc else getByPath doc path
  | _ => .rnull

/-! ## Helper notions and lemmas -/

/-- A path segment the resolver treats as a plain mapping key: nonempty,
not `#`-prefixed (hence neither `#` itself nor a query form), and not
parseable as a base-10 integer. -/
def isKeyToken (k : String) : Prop :=
  k ≠ "" ∧ strHasPrefix k "#" = false ∧ goAtoi k = none

lemma ne_hash_of_not_hashPrefix {k : String} (h : strHasPrefix k "#" = false) :
    k ≠ "#" := by
  intro hk
  subst hk
  exact Bool.noConfusion h

lemma not_parenPrefix_of_not_hashPrefix {k : String}
    (h : strHasPrefix k "#" = false) : strHasPrefix k "#(" = false := by
  unfold strHasPrefix at h ⊢
  cases hd : k.data with
  | nil => rfl
  | cons c cs =>
    rw [hd] at h
    show (('#' == c) && _) = false
    simp only [List.isPrefixOf, List.isPrefixOf_nil_left, Bool.and_true] at h
    simp [h]

/-- Resolving any segment list against an explicit null value yields Null:
every branch of the loop either skips an empty segment or returns Null for
the scalar. -/
lemma resolvePartsF_ynull (fuel : Nat) (rest : List String) :
    resolvePartsF fuel .ynull rest = .rnull := by
  induction fuel generalizing rest with
  | zero => rfl
  | succ n ih =>
    cases rest with
    | nil => rfl
    | cons p more =>
      show resolvePartsF (n + 1) .ynull (p :: more) = .rnull
      by_cases hp : p = ""
      · subst hp
        simpa [resolvePartsF] using ih more
      · by_cases hh : p = "#"
        · subst hh
          cases more with
          | nil => rfl
          | cons q qs => simp [resolvePartsF]
        · simp only [resolvePartsF, if_neg hp, if_neg hh]
          by_cases hq : (strHasPrefix p "#(" && strHasSuffix p ")") = true
          · rw [if_pos hq]
            rfl
          · rw [if_neg hq]
            by_cases hs : strHasPrefix p "#" = true
            · rw [if_pos hs]
            · rw [if_neg hs]
              cases goAtoi p <;> rfl

set_option maxRecDepth 8192 in
/-- Fuel irrelevance: any two fuel amounts strictly above the segment
measure resolve identically. -/
lemma resolvePartsF_fuel_irrel :
    ∀ (f g : Nat) (root : YVal) (parts : List String),
      segMeasure parts < f → segMeasure parts < g →
      resolvePartsF f root parts = resolvePartsF g root parts := by
  intro f
  induction f using Nat.strong_induction_on with
  | _ f ih =>
    intro g root parts hf hg
    match f, g with
    | f' + 1, g' + 1 =>
      cases parts with
      | nil => rfl
      | cons p rest =>
        have hmp : segMeasure (p :: rest) = p.length + (1 + segMeasure rest) := by
          simp [segMeasure]; omega
        rw [hmp] at hf hg
        have hrest_f : segMeasure rest < f' := by omega
        have hrest_g : segMeasure rest < g' := by omega
        by_cases hp : p = ""
        · subst hp
          show resolvePartsF f' root rest = resolvePartsF g' root rest
          exact ih f' (by omega) g' root rest hrest_f hrest_g
        · by_cases hh : p = "#"
          · subst hh
            cases rest with
            | nil => rfl
            | cons r rs =>
              cases root with
              | yarr arr =>
                by_cases hr : (r :: rs) = [""]
                · simp [resolvePartsF, hr]
                · have hmap : (arr.map fun item => resolvePartsF f' item (r :: rs))
                      = arr.map fun item => resolvePartsF g' item (r :: rs) :=
                    List.map_congr_left fun item _ =>
                      ih f' (by omega) g' item (r :: rs) hrest_f hrest_g
                  simp [resolvePartsF, hr, hmap]
              | _ => simp [resolvePartsF]
          · by_cases hq : (strHasPrefix p "#(" && strHasSuffix p ")") = true
            · have hih : ∀ v, resolvePartsF f' v rest = resolvePartsF g' v rest :=
                fun v => ih f' (by omega) g' v rest hrest_f hrest_g
              rw [Bool.and_eq_true] at hq
              have hstep : ∀ fl : Nat, resolvePartsF (fl + 1) root (p :: rest)
                  = (let result :=
                      handleArrayQuery root (strDropRight (strDrop p 2) 1)
                    if !result.Exists then result
                    else if rest = [] then result
                    else
                      let parsed : YVal :=
                        match result with
                        | .ryaml d => d
                        | r => r.Value
                      if rest = [""] then emptyPathResult parsed
                      else resolvePartsF fl parsed rest) := by
                intro fl
                simp only [resolvePartsF, if_neg hp, if_neg hh, hq.1, hq.2,
                  Bool.and_self, if_pos]
              rw [hstep f', hstep g']
              cases hre : (handleArrayQuery root (strDropRight (strDrop p 2) 1)).Exists
              · simp [hre]
              · by_cases hrest : rest = []
                · simp [hre, hrest]
                · by_cases hr1 : rest = [""]
                  · simp [hre, hrest, hr1]
                  · simp only [hre, hrest, hr1, Bool.not_true, if_neg,
                      Bool.false_eq_true, if_false]
                    exact hih _
            · by_cases hs : strHasPrefix p "#" = true
              · have hplen : p.length ≥ 1 := by
                  rcases p with ⟨l⟩
                  cases l with
                  | nil => exact absurd rfl hp
                  | cons c cs => simp [String.length]
                have hdrop : segMeasure [strDrop p 1] < f' ∧ segMeasure [strDrop p 1] < g' := by
                  have heq : segMeasure [strDrop p 1] = (p.length - 1) + 1 := by
                    rcases p with ⟨l⟩
                    simp [segMeasure, strDrop, String.length]
                  omega
                cases root with
                | ymap obj =>
                  cases hlk : lookupStr p obj with
                  | some v =>
                    have := ih f' (by omega) g' v rest hrest_f hrest_g
                    simp [resolvePartsF, hp, hh, hq, hs, hlk, this]
                  | none => simp [resolvePartsF, hp, hh, hq, hs, hlk]
                | yarr arr =>
                  have hmap : (arr.map fun item => resolvePartsF f' item [strDrop p 1])
                      = arr.map fun item => resolvePartsF g' item [strDrop p 1] :=
                    List.map_congr_left fun item _ =>
                      ih f' (by omega) g' item [strDrop p 1] hdrop.1 hdrop.2
                  simp [resolvePartsF, hp, hh, hq, hs, hmap]
                | _ => simp [resolvePartsF, hp, hh, hq, hs]
              · cases hat : goAtoi p with
                | some i =>
                  cases root with
                  | yarr xs =>
                    by_cases hrange : i < 0 ∨ (xs.length : Int) ≤ i
                    · simp [resolvePartsF, hp, hh, hq, hs, hat, hrange]
                    · have hidx := ih f' (by omega) g' (xs.getD i.toNat .ynull)
                        rest hrest_f hrest_g
                      simp [resolvePartsF, hp, hh, hq, hs, hat, hrange]
                      simpa using hidx
                  | _ => simp [resolvePartsF, hp, hh, hq, hs, hat]
                | none =>
                  cases root with
                  | ymap obj =>
                    cases hlk : lookupStr p obj with
                    | some v =>
                      have := ih f' (by omega) g' v rest hrest_f hrest_g
                      simp [resolvePartsF, hp, hh, hq, hs, hat, hlk, this]
                    | none => simp [resolvePartsF, hp, hh, hq, hs, hat, hlk]
                  | _ => simp [resolvePartsF, hp, hh, hq, hs, hat]

/-- The fuel supplied by `resolveParts` is sufficient: any strictly larger
fuel resolves identically. -/
lemma resolveParts_eq_resolvePartsF (root : YVal) (parts : List String)
    (f : Nat) (hf : segMeasure parts < f) :
    resolveParts root parts = resolvePartsF f root parts :=
  resolvePartsF_fuel_irrel (segMeasure parts + 1) f root parts
    (by omega) hf

/-- One step of the resolver at a plain key token: mappings look the key
up, every other value is a terminal Null. -/
lemma resolveKeyToken (v : YVal) (k : String) (rest : List String)
    (fuel : Nat) (hKey : isKeyToken k) :
    resolvePartsF (fuel + 1) v (k :: rest)
      = match v with
        | .ymap obj =>
          (match lookupStr k obj with
           | some val => resolvePartsF fuel val rest
           | none => .rnull)
        | _ => .rnull := by
  obtain ⟨hNe, hPre, hAtoi⟩ := hKey
  have hHash := ne_hash_of_not_hashPrefix hPre
  have hParen := not_parenPrefix_of_not_hashPrefix hPre
  simp [resolvePartsF, hNe, hHash, hParen, hPre, hAtoi]

/-- One step of the resolver at an integer token: sequences are indexed
(with bounds checks), every other value is a terminal Null. -/
lemma resolveIntToken (v : YVal) (k : String) (i : Int) (rest : List String)
    (fuel : Nat) (hAtoi : goAtoi k = some i)
    (hPre : strHasPrefix k "#" = false) (hNe : k ≠ "") :
    resolvePartsF (fuel + 1) v (k :: rest)
      = match v with
        | .yarr xs =>
          if i < 0 ∨ (xs.length : Int) ≤ i then .rnull
          else resolvePartsF fuel (xs.getD i.toNat .ynull) rest
        | _ => .rnull := by
  have hHash := ne_hash_of_not_hashPrefix hPre
  have hParen := not_parenPrefix_of_not_hashPrefix hPre
  simp [resolvePartsF, hNe, hHash, hParen, hPre, hAtoi]

/-- With either side of an ordering comparison unparseable as a number,
`compareNumbers` reports 0 ("not comparable"). -/
lemma compareNumbers_of_unparseable {v : YVal} {lit : String}
    (h : valAsFloat v = none ∨ goParseFloat lit = none) :
    compareNumbers v lit = 0 := by
  rcases h with h | h
  · simp [compareNumbers, h]
  · unfold compareNumbers
    cases valAsFloat v <;> simp [h]

/-- A `makeResult` value exists (is non-Null) exactly for non-null input. -/
lemma makeResult_exists (v : YVal) :
    (makeResult v).Exists = true ↔ v ≠ .ynull := by
  cases v with
  | ybool b => cases b <;> simp [makeResult, Result.Exists]
  | _ => simp [makeResult, Result.Exists]

/-- The broadcast collection keeps exactly the existing sub-results. -/
lemma collectExisting_length (rs : List Result) :
    (collectExisting rs).length = rs.countP (fun r => r.Exists) := by
  simp [collectExisting, List.countP_eq_length_filter]

/-- One step of the resolver at the concrete key segment `"arr"`. -/
lemma resolveArrKeyStep (m : List (String × YVal)) (rest' : List String)
    (fuel : Nat) :
    resolvePartsF (fuel + 1) (.ymap m) ("arr" :: rest')
      = (match lookupStr "arr" m with
         | some val => resolvePartsF fuel val rest'
         | none => .rnull) := rfl

/-- One step of the resolver at a final query segment `#(...)`: the result
is exactly `handleArrayQuery` on the text between the parentheses (whether
or not a match exists). -/
lemma resolveQuerySeg (current : YVal) (qseg : String) (fuel : Nat)
    (hPre : strHasPrefix qseg "#(" = true)
    (hSuf : strHasSuffix qseg ")" = true) :
    resolvePartsF (fuel + 1) current [qseg]
      = handleArrayQuery current (strDropRight (strDrop qseg 2) 1) := by
  have hne : qseg ≠ "" := by
    intro h
    subst h
    exact Bool.noConfusion hPre
  have hnh : qseg ≠ "#" := by
    intro h
    subst h
    exact Bool.noConfusion hPre
  simp only [resolvePartsF, if_neg hne, if_neg hnh, hPre, hSuf,
    Bool.and_self, if_pos]
  cases hre : (handleArrayQuery current (strDropRight (strDrop qseg 2) 1)).Exists <;>
    simp [hre]

/-- The element test of the C2 claim: the element is a mapping that has
field `k` whose `%v` rendering equals the (parsed) literal `v`. -/
def elemFieldEq (k v : String) : YVal → Bool
  | .ymap o =>
    (match lookupStr k o with
     | some fv => goFmt fv == v
     | none => false)
  | _ => false

/-- The query loop with operator `=` and a nonempty key returns the first
element satisfying `elemFieldEq` (elements lacking the field and non-map
elements are skipped), or Null. -/
lemma queryLoop_eq_findFirst (k v : String) (hk : k ≠ "") (arr : List YVal) :
    queryLoop k "=" v arr
      = (match arr.find? (elemFieldEq k v) with
         | some item => makeResult item
         | none => .rnull) := by
  induction arr with
  | nil => rfl
  | cons item more ih =>
    cases item with
    | ymap o =>
      cases hlk : lookupStr k o with
      | some fv =>
        have hmc : matchesCondition fv "=" v = (goFmt fv == v) := rfl
        cases hfe : (goFmt fv == v) with
        | true =>
          have hp : elemFieldEq k v (.ymap o) = true := by
            simp [elemFieldEq, hlk, hfe]
          rw [List.find?_cons_of_pos _ hp]
          simp [queryLoop, hlk, hmc, hfe]
        | false =>
          have hp : elemFieldEq k v (.ymap o) = false := by
            simp [elemFieldEq, hlk, hfe]
          rw [List.find?_cons_of_neg _ (by simp [hp])]
          simp [queryLoop, hlk, hmc, hfe, ih]
      | none =>
        have hp : elemFieldEq k v (.ymap o) = false := by
          simp [elemFieldEq, hlk]
        rw [List.find?_cons_of_neg _ (by simp [hp])]
        simp [queryLoop, hlk, ih]
    | _ =>
      rw [List.find?_cons_of_neg _ (by simp [elemFieldEq])]
      simp [queryLoop, hk, ih]

set_option maxHeartbeats 3200000 in
/-- Boundary behaviour of the `ParseFloat` model: the special forms parse
(case-insensitively; no sign before `nan`), an over-range decimal such
as 1e309 fails (Go's `ErrRange`), an underflowing one such as 1e-324
gives zero with no error, underscore and
hexadecimal literal forms are accepted, and distinct literals rounding to
the same binary64 value parse equal. -/
lemma goParseFloat_boundaries :
    goParseFloat "inf" = some (.inf false)
    ∧ goParseFloat "-Infinity" = some (.inf true)
    ∧ goParseFloat "nan" = some .nan
    ∧ goParseFloat "-nan" = none
    ∧ goParseFloat "1e309" = none
    ∧ goParseFloat "1e-324" = some (.finite 0)
    ∧ goParseFloat "1_000.5" = some (.finite (mkRat 2001 2))
    ∧ goParseFloat "0x1p-2" = some (.finite (mkRat 1 4))
    ∧ goParseFloat "1__0" = none
    ∧ goParseFloat "0.1" = goParseFloat "0.1000000000000000055" :=
  ⟨by decide, by decide, by decide, by decide, by decide, by decide, by decide,
   by decide, by decide, by decide⟩

set_option maxHeartbeats 3200000 in
/-- Consequences inside the resolver: an infinite literal compares
numerically (so `k<inf` matches a finite field), and an over-range
literal is incomparable (so `k>=1e309` matches through the
incomparable-counts-as-0 behaviour of C3). -/
lemma query_special_literal_probes :
    getByPath (.ymap [("arr", .yarr [.ymap [("k", .yint 5)]])]) "arr.#(k<inf)"
      = .ryaml (.ymap [("k", .yint 5)])
    ∧ getByPath (.ymap [("arr", .yarr [.ymap [("k", .yint 5)]])]) "arr.#(k>=1e309)"
      = .ryaml (.ymap [("k", .yint 5)]) :=
  ⟨rfl, rfl⟩

/-- Rendering fidelity of the `%v` model: `FormatFloat('g', -1, 64)`
switches to exponent notation below 1e-4 and at 1e21, so `=` queries
against such renderings behave as in Go. -/
lemma fmtFloat_exponent_forms :
    fmtFloat (mkRat 1 100000) = "1e-05"
    ∧ fmtFloat (mkRat 1 10000) = "0.0001"
    ∧ fmtFloat ((natPow 10 21 : Nat) : Rat) = "1e+21"
    ∧ fmtFloat ((natPow 10 20 : Nat) : Rat) = "100000000000000000000"
    ∧ fmtFloat (mkRat 123456 1000) = "123.456"
    ∧ matchesCondition (.yfloat (mkRat 1 100000)) "=" "1e-05" = true :=
  ⟨rfl, rfl, rfl, rfl, rfl, rfl⟩

/-- Range behaviour of the `Int()`/`Uint()` string coercions: the code
discards the parse error, so out-of-range values come back clamped. -/
lemma int_uint_string_clamping :
    (Result.rstr "9223372036854775808").Int = 9223372036854775807
    ∧ (Result.rstr "-9223372036854775809").Int = -9223372036854775808
    ∧ (Result.rstr "18446744073709551616").Uint = 18446744073709551615
    ∧ (Result.rstr "junk").Int = 0 :=
  ⟨rfl, rfl, rfl, rfl⟩

/-! ## Claims -/

/-- C10: a path token that parses as a base-10 integer is always treated as
a sequence index; on a mapping the resolver returns Null even when the
mapping contains that exact token as a literal string key, so such entries
are unreachable via paths. -/
theorem intToken_on_mapping_null (m : List (String × YVal)) (k : String)
    (i : Int) (rest : List String) (fuel : Nat)
    (hAtoi : goAtoi k = some i) (hPre : strHasPrefix k "#" = false)
    (hNe : k ≠ "") :
    resolvePartsF (fuel + 1) (.ymap m) (k :: rest) = .rnull := by
  have hHash : k ≠ "#" := ne_hash_of_not_hashPrefix hPre
  have hParen : strHasPrefix k "#(" = false :=
    not_parenPrefix_of_not_hashPrefix hPre
  simp [resolvePartsF, hNe, hHash, hParen, hPre, hAtoi]

/-- Witness for C10: the mapping `{"2": "x"}` holds the literal key `"2"`,
yet the path `"2"` resolves to Null. -/
theorem intToken_on_mapping_null_witness :
    goAtoi "2" = some 2 ∧ strHasPrefix "2" "#" = false ∧
    lookupStr "2" [("2", .ystr "x")] = some (.ystr "x") ∧
    resolvePartsF (0 + 1) (.ymap [("2", .ystr "x")]) ["2"] = .rnull :=
  ⟨rfl, rfl, rfl,
    intToken_on_mapping_null [("2", .ystr "x")] "2" 2 [] 0 rfl rfl (by decide)⟩

/-- C9: a key whose value is an explicit document null resolves to the same
Null result (with `Exists()` false) as a key that is entirely absent — the
two cases are indistinguishable at the public interface. -/
theorem explicit_null_indistinguishable (m m' : List (String × YVal))
    (k : String) (rest : List String) (fuel fuel' : Nat)
    (hKey : isKeyToken k)
    (hNull : lookupStr k m = some .ynull)
    (hAbsent : lookupStr k m' = none) :
    resolvePartsF (fuel + 1) (.ymap m) (k :: rest) = .rnull
    ∧ resolvePartsF (fuel' + 1) (.ymap m') (k :: rest) = .rnull
    ∧ (resolvePartsF (fuel + 1) (.ymap m) (k :: rest)).Exists = false := by
  obtain ⟨hNe, hPre, hAtoi⟩ := hKey
  have hHash : k ≠ "#" := ne_hash_of_not_hashPrefix hPre
  have hParen : strHasPrefix k "#(" = false :=
    not_parenPrefix_of_not_hashPrefix hPre
  have h1 : resolvePartsF (fuel + 1) (.ymap m) (k :: rest) = .rnull := by
    simp [resolvePartsF, hNe, hHash, hParen, hPre, hAtoi, hNull,
      resolvePartsF_ynull]
  have h2 : resolvePartsF (fuel' + 1) (.ymap m') (k :: rest) = .rnull := by
    simp [resolvePartsF, hNe, hHash, hParen, hPre, hAtoi, hAbsent]
  exact ⟨h1, h2, by rw [h1]; rfl⟩

/-- Witness for C9: `{a: null}` and `{}` both resolve `"a"` to Null. -/
theorem explicit_null_indistinguishable_witness :
    resolvePartsF (0 + 1) (.ymap [("a", .ynull)]) ["a"] = .rnull
    ∧ resolvePartsF (0 + 1) (.ymap []) ["a"] = .rnull
    ∧ (resolvePartsF (0 + 1) (.ymap [("a", .ynull)]) ["a"]).Exists = false :=
  explicit_null_indistinguishable [("a", .ynull)] [] "a" [] 0 0
    ⟨by decide, rfl, rfl⟩ rfl rfl

/-- Counterexample to C4 as stated: the claim equates the broadcast's
element count with the number of elements of `arr` "that define key k",
but `{arr: [{k: null}]}` — whose single element does define the key `k`,
with an explicit null value — broadcasts `arr.#.k` to an empty container:
the sub-resolution of a null value does not exist and is dropped. -/
theorem broadcast_count_counterexample :
    getByPath (.ymap [("arr", .yarr [.ymap [("k", .ynull)]])]) "arr.#.k"
      = .ryaml (.yarr [])
    ∧ lookupStr "k" [("k", YVal.ynull)] = some .ynull :=
  ⟨rfl, rfl⟩

/-- C4 as amended: `arr.#.k` on a sequence always returns a Container
(never Null, even when empty) whose element count equals the number of
elements whose sub-resolution of `k` exists — that is, mapping elements
carrying field `k` with a non-null value — hence at most the sequence's
element count; a non-sequence target yields Null, distinguishing "no
matches" from "not a sequence". -/
theorem broadcast_container_count :
    (∀ (m : List (String × YVal)) (arr : List YVal) (k : String) (fuel : Nat),
      lookupStr "arr" m = some (.yarr arr) → isKeyToken k →
      resolvePartsF (fuel + 2) (.ymap m) ["arr", "#", k]
        = .ryaml (.yarr (collectExisting
            (arr.map fun item => resolvePartsF fuel item [k])))
      ∧ (collectExisting
            (arr.map fun item => resolvePartsF fuel item [k])).length
          = arr.countP (fun item => (resolvePartsF fuel item [k]).Exists)
      ∧ arr.countP (fun item => (resolvePartsF fuel item [k]).Exists)
          ≤ arr.length)
    ∧ (∀ (item : YVal) (k : String) (fuel : Nat), isKeyToken k →
      ((resolvePartsF (fuel + 2) item [k]).Exists = true
        ↔ ∃ o fv, item = .ymap o ∧ lookupStr k o = some fv ∧ fv ≠ .ynull))
    ∧ (∀ (m : List (String × YVal)) (v' : YVal) (k : String) (fuel : Nat),
      lookupStr "arr" m = some v' → (∀ xs, v' ≠ .yarr xs) →
      resolvePartsF (fuel + 2) (.ymap m) ["arr", "#", k] = .rnull) := by
  refine ⟨?_, ?_, ?_⟩
  · intro m arr k fuel hLk hKey
    obtain ⟨hkne, -, -⟩ := hKey
    have h0 : resolvePartsF (fuel + 2) (.ymap m) ["arr", "#", k]
        = resolvePartsF (fuel + 1) (.yarr arr) ["#", k] := by
      rw [resolveArrKeyStep m ["#", k] (fuel + 1), hLk]
    refine ⟨?_, ?_, ?_⟩
    · rw [h0]
      simp [resolvePartsF, makeResult, hkne]
    · rw [collectExisting_length, List.countP_map]
      rfl
    · exact List.countP_le_length _
  · intro item k fuel hKey
    rw [resolveKeyToken item k [] (fuel + 1) hKey]
    cases item with
    | ymap o =>
      cases hlk : lookupStr k o with
      | some fv =>
        have h1 : resolvePartsF (fuel + 1) fv [] = makeResult fv := rfl
        simp only [hlk, h1, makeResult_exists]
        constructor
        · exact fun hfv => ⟨o, fv, rfl, hlk, hfv⟩
        · rintro ⟨o', fv', heq, hlk', hfv'⟩
          cases heq
          rw [hlk] at hlk'
          cases hlk'
          exact hfv'
      | none =>
        simp only [hlk, Result.Exists]
        constructor
        · intro h
          exact Bool.noConfusion h
        · rintro ⟨o', fv', heq, hlk', -⟩
          cases heq
          rw [hlk] at hlk'
          exact Option.noConfusion hlk'
    | _ =>
      simp only [Result.Exists]
      constructor
      · intro h
        exact Bool.noConfusion h
      · rintro ⟨o', fv', heq, -, -⟩
        exact YVal.noConfusion heq
  · intro m v' k fuel hLk hv
    have h0 : resolvePartsF (fuel + 2) (.ymap m) ["arr", "#", k]
        = resolvePartsF (fuel + 1) v' ["#", k] := by
      rw [resolveArrKeyStep m ["#", k] (fuel + 1), hLk]
    rw [h0]
    cases v' with
    | yarr xs => exact absurd rfl (hv xs)
    | _ => simp [resolvePartsF]

/-- Witness for C4 (amended): on `{arr: [{k: 1}, {j: 2}, "str"]}` the path
`arr.#.k` yields a container whose count (1) is the number of elements
whose `k` exists, and that is at most 3; a mapping element with `k: 1`
satisfies the existence characterisation; a non-sequence target gives
Null. -/
theorem broadcast_container_count_witness :
    (resolvePartsF (0 + 2)
        (.ymap [("arr", .yarr [.ymap [("k", .yint 1)], .ymap [("j", .yint 2)],
          .ystr "str"])]) ["arr", "#", "k"]
      = .ryaml (.yarr (collectExisting
          ([.ymap [("k", .yint 1)], .ymap [("j", .yint 2)],
            .ystr "str"].map fun item => resolvePartsF 0 item ["k"])))
      ∧ (collectExisting
          ([.ymap [("k", .yint 1)], .ymap [("j", .yint 2)],
            .ystr "str"].map fun item => resolvePartsF 0 item ["k"])).length
        = [(.ymap [("k", .yint 1)] : YVal), .ymap [("j", .yint 2)],
            .ystr "str"].countP
            (fun item => (resolvePartsF 0 item ["k"]).Exists)
      ∧ [(.ymap [("k", .yint 1)] : YVal), .ymap [("j", .yint 2)],
          .ystr "str"].countP
          (fun item => (resolvePartsF 0 item ["k"]).Exists)
        ≤ [(.ymap [("k", .yint 1)] : YVal), .ymap [("j", .yint 2)],
            .ystr "str"].length)
    ∧ ((resolvePartsF (0 + 2) (.ymap [("k", .yint 1)]) ["k"]).Exists = true
        ↔ ∃ o fv, (.ymap [("k", .yint 1)] : YVal) = .ymap o
            ∧ lookupStr "k" o = some fv ∧ fv ≠ .ynull)
    ∧ resolvePartsF (0 + 2) (.ymap [("arr", .yint 9)]) ["arr", "#", "k"]
        = .rnull :=
  ⟨broadcast_container_count.1
      [("arr", .yarr [.ymap [("k", .yint 1)], .ymap [("j", .yint 2)],
        .ystr "str"])]
      [.ymap [("k", .yint 1)], .ymap [("j", .yint 2)], .ystr "str"]
      "k" 0 rfl ⟨by decide, rfl, rfl⟩,
    broadcast_container_count.2.1 (.ymap [("k", .yint 1)]) "k" 0
      ⟨by decide, rfl, rfl⟩,
    broadcast_container_count.2.2 [("arr", .yint 9)] (.yint 9) "k" 0 rfl
      (fun _ h => YVal.noConfusion h)⟩

/-- Counterexample to C5 as stated: the claim's coercion table says both
`Int()` and `Uint()` prefer parsing the retained raw text, so on
`Result{Type: Number, Num: 123.456, Raw: "789"}` (a shape the repository's
own tests build) `Uint()` would give 789; the code ignores `Raw` in
`Uint()` and truncates the float to 123 (while `Int()` does give 789). -/
theorem uint_ignores_raw_counterexample :
    (Result.rnum ((123456 : Rat) / 1000) "789").Uint = 123
    ∧ (Result.rnum ((123456 : Rat) / 1000) "789").Int = 789 :=
  ⟨rfl, rfl⟩

/-- The coercion table of C5 as amended, for `Int()`: `True` gives 1,
strings parse as base-10 integers with the parse error discarded (0 on a
syntax error, the extreme of the right sign on range overflow), numbers
prefer the trimmed raw text parsed as an in-range integer and otherwise
truncate the float, all other variants give 0. -/
def intCoercionSpec : Result → Int
  | .rtrue => 1
  | .rstr s => goParseIntValue s
  | .rnum num raw =>
    ((if raw = "" then none else goParseInt (strTrim raw)).getD (truncRat num))
  | _ => 0

/-- The coercion table of C5 as amended, for `Uint()`: `True` gives 1,
strings parse as base-10 unsigned integers with the parse error discarded
(0 on a syntax error, the maximum uint64 on range overflow), numbers give
0 when negative and otherwise the truncated float — the raw text is not
consulted — and all other variants give 0. -/
def uintCoercionSpec : Result → Nat
  | .rtrue => 1
  | .rstr s => goParseUintValue s
  | .rnum num _ => if num < 0 then 0 else num.floor.toNat
  | _ => 0

/-- C5 as amended: `Int()` and `Uint()` implement exactly the corrected
coercion tables — the string branches discard the parse error (clamping
on range overflow rather than returning 0), and `Uint()` does not consult
the raw text. -/
theorem int_uint_follow_tables (r : Result) :
    r.Int = intCoercionSpec r ∧ r.Uint = uintCoercionSpec r := by
  refine ⟨?_, ?_⟩ <;> cases r <;>
    simp [Result.Int, Result.Uint, intCoercionSpec, uintCoercionSpec]
  case _ num raw =>
    by_cases hr : raw = ""
    · simp [hr]
    · cases h : goParseInt (strTrim raw) <;> simp [hr, h]

/-- C6 evaluation at the failing input: on `{arr: [1,2,3]}` the path
`"arr.#."` returns the whole array as a container (a broadcast with empty
payload), not the Length result that `"arr.#"` returns and that the
source's own comment ("Check if this is the last part or if next part is
empty") describes. -/
theorem trailing_dot_after_hash_evaluation :
    getByPath (.ymap [("arr", .yarr [.yint 1, .yint 2, .yint 3])]) "arr.#."
      = .ryaml (.yarr [.yint 1, .yint 2, .yint 3])
    ∧ getByPath (.ymap [("arr", .yarr [.yint 1, .yint 2, .yint 3])]) "arr.#"
      = .rnum 3 "" :=
  ⟨rfl, rfl⟩

/-- A parser oracle recording the one fact about the black-box parser the
C7 counterexample needs: `yaml.Unmarshal` of gopkg.in/yaml.v3 succeeds on
empty input (it produces no document node, leaves the target nil, and
returns no error), so `Valid("")` is true. -/
def emptyAcceptingParser : YParser := fun _ => some .ynull

/-- Counterexample to C7 as stated: with the actual parser behaviour on
empty input, `Valid("")` is true yet `Parse("")` is Null (the repository's
tests pin `Parse("") = Null`), so Parse does not return Null exactly on
parse failure. -/
theorem parse_valid_mismatch_counterexample :
    Valid emptyAcceptingParser "" = true
    ∧ Parse emptyAcceptingParser "" = .rnull :=
  ⟨rfl, rfl⟩

/-- C7 as amended: `Parse(d)` returns a container wrapping the parsed
document exactly when `d` is nonempty and `Valid(d)`; it returns Null
exactly when `d` is empty or fails to parse. -/
theorem parse_container_iff_valid (p : YParser) (d : String) :
    ((∃ root, p d = some root ∧ Parse p d = .ryaml root)
      ↔ (d ≠ "" ∧ Valid p d = true))
    ∧ (Parse p d = .rnull ↔ (d = "" ∨ Valid p d = false)) := by
  by_cases hd : d = "" <;> cases hp : p d <;>
    simp [Parse, Valid, hd, hp]

/-- C8: for a container `Result` (whose retained raw text re-parses to its
document), `Get("")` returns the same `Result`; for any non-container
receiver, `Get` of any path returns Null. -/
theorem result_get_roundtrip :
    (∀ doc : YVal, (Result.ryaml doc).Get "" = .ryaml doc)
    ∧ (∀ (r : Result) (path : String), (∀ d, r ≠ .ryaml d) →
        r.Get path = .rnull) := by
  refine ⟨fun doc => rfl, fun r path h => ?_⟩
  cases r with
  | ryaml d => exact absurd rfl (h d)
  | _ => rfl

/-- Witness for C8: a concrete container round-trips, and a string result
yields Null. -/
theorem result_get_roundtrip_witness :
    (Result.ryaml (.ymap [("a", .yint 1)])).Get "" = .ryaml (.ymap [("a", .yint 1)])
    ∧ (Result.rstr "hi").Get "a" = .rnull :=
  ⟨result_get_roundtrip.1 _,
    result_get_roundtrip.2 (.rstr "hi") "a" (fun _ h => Result.noConfusion h)⟩

/-- Counterexample to C2 as stated: the claim requires the matched
element's field rendering to equal the literal `v` exactly (string
comparison), but the code trims whitespace and surrounding quotes from the
literal.  With `v` the quoted text `'x'`, the sole element `{k: "x"}`
renders its field as `x`, not `'x'` — so the claim predicts Null — yet the
query returns that element. -/
theorem query_literal_trimmed_counterexample :
    elemFieldEq "k" "'x'" (.ymap [("k", .ystr "x")]) = false
    ∧ getByPath (.ymap [("arr", .yarr [.ymap [("k", .ystr "x")]])])
        "arr.#(k='x')" = .ryaml (.ymap [("k", .ystr "x")]) :=
  ⟨rfl, rfl⟩

/-- C2 as amended: when the segment after `arr` has the form `#(...)` and
its predicate text parses with operator `=` to a nonempty key `k` and
literal `v` (the literal after whitespace/quote trimming), resolution
returns the first element of the sequence that is a mapping whose field
`k` renders (via `%v`) exactly equal to `v`; elements lacking the field
and non-mapping elements are skipped; no match, or a non-sequence target,
gives Null. -/
theorem query_first_match :
    (∀ (m : List (String × YVal)) (arr : List YVal)
      (qseg q k v : String) (fuel : Nat),
      lookupStr "arr" m = some (.yarr arr) →
      strHasPrefix qseg "#(" = true → strHasSuffix qseg ")" = true →
      strDropRight (strDrop qseg 2) 1 = q →
      parseQuery q = some (k, "=", v) → k ≠ "" →
      resolvePartsF (fuel + 2) (.ymap m) ["arr", qseg]
        = (match arr.find? (elemFieldEq k v) with
           | some item => makeResult item
           | none => .rnull))
    ∧ (∀ (m : List (String × YVal)) (v' : YVal) (qseg : String) (fuel : Nat),
      lookupStr "arr" m = some v' → (∀ xs, v' ≠ .yarr xs) →
      strHasPrefix qseg "#(" = true → strHasSuffix qseg ")" = true →
      resolvePartsF (fuel + 2) (.ymap m) ["arr", qseg] = .rnull) := by
  constructor
  · intro m arr qseg q k v fuel hLk hPre hSuf hq hParse hk
    have h0 : resolvePartsF (fuel + 2) (.ymap m) ["arr", qseg]
        = resolvePartsF (fuel + 1) (.yarr arr) [qseg] := by
      rw [resolveArrKeyStep m [qseg] (fuel + 1), hLk]
    rw [h0, resolveQuerySeg (.yarr arr) qseg fuel hPre hSuf, hq]
    simp [handleArrayQuery, hParse, queryLoop_eq_findFirst k v hk arr]
  · intro m v' qseg fuel hLk hv hPre hSuf
    have h0 : resolvePartsF (fuel + 2) (.ymap m) ["arr", qseg]
        = resolvePartsF (fuel + 1) v' [qseg] := by
      rw [resolveArrKeyStep m [qseg] (fuel + 1), hLk]
    rw [h0, resolveQuerySeg v' qseg fuel hPre hSuf]
    cases v' with
    | yarr xs => exact absurd rfl (hv xs)
    | _ => rfl

/-- Witness for C2 (amended): on `{arr: [{k: "a"}, {k: "s"}, {j: 1}]}` the
query segment `#(k=s)` parses to key `k`, operator `=`, literal `s`, and
resolution returns the second element (the first whose field renders as
`s`); on a non-sequence target it returns Null. -/
theorem query_first_match_witness :
    resolvePartsF (0 + 2)
      (.ymap [("arr", .yarr [.ymap [("k", .ystr "a")], .ymap [("k", .ystr "s")],
        .ymap [("j", .yint 1)]])]) ["arr", "#(k=s)"]
      = (match ([(.ymap [("k", .ystr "a")] : YVal), .ymap [("k", .ystr "s")],
          .ymap [("j", .yint 1)]].find? (elemFieldEq "k" "s")) with
         | some item => makeResult item
         | none => .rnull)
    ∧ resolvePartsF (0 + 2) (.ymap [("arr", .ystr "notanarray")])
        ["arr", "#(k=s)"] = .rnull :=
  ⟨query_first_match.1
      [("arr", .yarr [.ymap [("k", .ystr "a")], .ymap [("k", .ystr "s")],
        .ymap [("j", .yint 1)]])]
      [.ymap [("k", .ystr "a")], .ymap [("k", .ystr "s")],
        .ymap [("j", .yint 1)]]
      "#(k=s)" "k=s" "k" "s" 0 rfl rfl rfl rfl rfl (by decide),
    query_first_match.2 [("arr", .ystr "notanarray")] (.ystr "notanarray")
      "#(k=s)" 0 rfl (fun _ h => YVal.noConfusion h) rfl rfl⟩

/-- Counterexample to C3 as stated: the claim says an unparseable side
never satisfies any of the four ordering operators, but `compareNumbers`
returns 0 for incomparable pairs and `>=`/`<=` accept 0, so a non-numeric
subject satisfies `k>=7` and `k<=7`. -/
theorem incomparable_satisfies_nonstrict_counterexample :
    valAsFloat (.ystr "zzz") = none
    ∧ matchesCondition (.ystr "zzz") ">=" "7" = true
    ∧ matchesCondition (.ystr "zzz") "<=" "7" = true :=
  ⟨rfl, rfl, rfl⟩

/-- C3 as amended: ordering predicates widen both sides to `float64`
(integers by direct conversion with binary64 rounding, floats as stored,
anything else through its `%v` rendering fed to `ParseFloat`, which also
accepts the `inf`/`nan` forms and fails with a range error on overflow)
and compare with IEEE float comparison when both sides parse; whenever
either side fails to parse the comparison result is 0, so the strict
operators `>`/`<` are not satisfied while the non-strict `>=`/`<=` are
satisfied. -/
theorem ordering_widens_and_defaults :
    (∀ (v : YVal) (lit : String) (a b : GoFloat),
      valAsFloat v = some a → goParseFloat lit = some b →
      compareNumbers v lit
        = (if gfLt b a then 1 else if gfLt a b then -1 else 0))
    ∧ (∀ (v : YVal) (lit : String),
      valAsFloat v = none ∨ goParseFloat lit = none →
      compareNumbers v lit = 0
      ∧ matchesCondition v ">" lit = false
      ∧ matchesCondition v "<" lit = false
      ∧ matchesCondition v ">=" lit = true
      ∧ matchesCondition v "<=" lit = true)
    ∧ (∀ n : Int, valAsFloat (.yint n) = some (.finite (roundToF64 (n : Rat))))
    ∧ (∀ q : Rat, valAsFloat (.yfloat q) = some (.finite q))
    ∧ (∀ s : String, valAsFloat (.ystr s) = goParseFloat s) := by
  refine ⟨?_, ?_, fun n => rfl, fun q => rfl, fun s => rfl⟩
  · intro v lit a b ha hb
    simp [compareNumbers, ha, hb]
  · intro v lit h
    have hc : compareNumbers v lit = 0 := compareNumbers_of_unparseable h
    refine ⟨hc, ?_, ?_, ?_, ?_⟩ <;> simp [matchesCondition, hc]

/-- Counterexample to C1 as stated: the claim lists "non-numeric
comparison" among the mismatches that yield the Null Result (or an empty
collection), but on `{arr: [{k: "abc"}]}` the query `arr.#(k>=5)`, whose
subject `"abc"` is unparseable as a number, returns the element itself —
neither Null nor empty (the incomparable comparison counts as 0, which
satisfies `>=`). -/
theorem mismatch_yields_null_counterexample :
    valAsFloat (.ystr "abc") = none
    ∧ getByPath (.ymap [("arr", .yarr [.ymap [("k", .ystr "abc")]])])
        "arr.#(k>=5)" = .ryaml (.ymap [("k", .ystr "abc")])
    ∧ (Result.ryaml (.ymap [("k", .ystr "abc")])).Exists = true :=
  ⟨rfl, rfl, rfl⟩

/-- C1 as amended: resolution is total with benign defaults — a key
segment on a non-mapping or with a missing key, an integer segment on a
non-sequence or out of range, a length segment on a scalar, a broadcast
segment on a non-sequence, a query segment on a non-sequence, and
malformed predicate text all yield the Null Result; a broadcast over a
sequence always yields a Container (possibly empty); and a non-numeric
ordering comparison never errors: it counts as 0, failing the strict
operators (while satisfying the non-strict ones, as C3 records). -/
theorem resolver_mismatch_totality :
    (∀ (v : YVal) (k : String) (rest : List String) (fuel : Nat),
      isKeyToken k → (∀ m, v ≠ .ymap m) →
      resolvePartsF (fuel + 1) v (k :: rest) = .rnull)
    ∧ (∀ (m : List (String × YVal)) (k : String) (rest : List String)
        (fuel : Nat), isKeyToken k → lookupStr k m = none →
      resolvePartsF (fuel + 1) (.ymap m) (k :: rest) = .rnull)
    ∧ (∀ (v : YVal) (k : String) (i : Int) (rest : List String) (fuel : Nat),
      goAtoi k = some i → strHasPrefix k "#" = false → k ≠ "" →
      (∀ xs, v ≠ .yarr xs) →
      resolvePartsF (fuel + 1) v (k :: rest) = .rnull)
    ∧ (∀ (xs : List YVal) (k : String) (i : Int) (rest : List String)
        (fuel : Nat), goAtoi k = some i → strHasPrefix k "#" = false →
      k ≠ "" → (i < 0 ∨ (xs.length : Int) ≤ i) →
      resolvePartsF (fuel + 1) (.yarr xs) (k :: rest) = .rnull)
    ∧ (∀ (v : YVal) (fuel : Nat), (∀ xs, v ≠ .yarr xs) →
      (∀ m, v ≠ .ymap m) → resolvePartsF (fuel + 1) v ["#"] = .rnull)
    ∧ (∀ (v : YVal) (rest : List String) (fuel : Nat), rest ≠ [] →
      (∀ xs, v ≠ .yarr xs) →
      resolvePartsF (fuel + 1) v ("#" :: rest) = .rnull)
    ∧ (∀ (xs : List YVal) (rest : List String) (fuel : Nat), rest ≠ [] →
      rest ≠ [""] → ∃ l, resolvePartsF (fuel + 1) (.yarr xs) ("#" :: rest)
        = .ryaml (.yarr l))
    ∧ (∀ (v : YVal) (q : String), (∀ xs, v ≠ .yarr xs) →
      handleArrayQuery v q = .rnull)
    ∧ (∀ (xs : List YVal) (q : String), parseQuery q = none →
      handleArrayQuery (.yarr xs) q = .rnull)
    ∧ (∀ (v : YVal) (lit : String),
      valAsFloat v = none ∨ goParseFloat lit = none →
      matchesCondition v ">" lit = false
      ∧ matchesCondition v "<" lit = false) := by
  refine ⟨?_, ?_, ?_, ?_, ?_, ?_, ?_, ?_, ?_, ?_⟩
  · intro v k rest fuel hKey hv
    rw [resolveKeyToken v k rest fuel hKey]
    cases v with
    | ymap m => exact absurd rfl (hv m)
    | _ => rfl
  · intro m k rest fuel hKey hAbsent
    rw [resolveKeyToken _ k rest fuel hKey]
    simp [hAbsent]
  · intro v k i rest fuel hAtoi hPre hNe hv
    rw [resolveIntToken v k i rest fuel hAtoi hPre hNe]
    cases v with
    | yarr xs => exact absurd rfl (hv xs)
    | _ => rfl
  · intro xs k i rest fuel hAtoi hPre hNe hRange
    rw [resolveIntToken _ k i rest fuel hAtoi hPre hNe]
    simp [hRange]
  · intro v fuel hArr hMap
    cases v with
    | yarr xs => exact absurd rfl (hArr xs)
    | ymap m => exact absurd rfl (hMap m)
    | _ => rfl
  · intro v rest fuel hRest hArr
    cases rest with
    | nil => exact absurd rfl hRest
    | cons r rs =>
      cases v with
      | yarr xs => exact absurd rfl (hArr xs)
      | _ => simp [resolvePartsF]
  · intro xs rest fuel hRest hRest1
    cases rest with
    | nil => exact absurd rfl hRest
    | cons r rs =>
      exact ⟨collectExisting
          (xs.map fun item => resolvePartsF fuel item (r :: rs)),
        by simp [resolvePartsF, makeResult, hRest1]⟩
  · intro v q hArr
    cases v with
    | yarr xs => exact absurd rfl (hArr xs)
    | _ => rfl
  · intro xs q hQ
    simp [handleArrayQuery, hQ]
  · intro v lit h
    have hc := compareNumbers_of_unparseable h
    exact ⟨by simp [matchesCondition, hc], by simp [matchesCondition, hc]⟩

/-- Witness for C1 (amended): concrete mismatches all yield Null, a
broadcast over a sequence yields a Container, and a non-numeric comparison
fails the strict operators. -/
theorem resolver_mismatch_totality_witness :
    resolvePartsF (0 + 1) (.ystr "s") ["k"] = .rnull
    ∧ resolvePartsF (0 + 1) (.ymap [("a", .yint 1)]) ["b"] = .rnull
    ∧ resolvePartsF (0 + 1) (.ystr "s") ["0"] = .rnull
    ∧ resolvePartsF (0 + 1) (.yarr [.yint 1]) ["5"] = .rnull
    ∧ resolvePartsF (0 + 1) (.ystr "s") ["#"] = .rnull
    ∧ resolvePartsF (0 + 1) (.ystr "s") ["#", "k"] = .rnull
    ∧ (∃ l, resolvePartsF (0 + 1) (.yarr [.yint 1]) ["#", "k"]
        = .ryaml (.yarr l))
    ∧ handleArrayQuery (.ystr "s") "a=b" = .rnull
    ∧ handleArrayQuery (.yarr [.yint 1]) "nonsense" = .rnull
    ∧ (matchesCondition (.ystr "w") ">" "3" = false
      ∧ matchesCondition (.ystr "w") "<" "3" = false) :=
  ⟨resolver_mismatch_totality.1 _ "k" [] 0 ⟨by decide, rfl, rfl⟩
      (fun m h => YVal.noConfusion h),
    resolver_mismatch_totality.2.1 _ "b" [] 0 ⟨by decide, rfl, rfl⟩ rfl,
    resolver_mismatch_totality.2.2.1 _ "0" 0 [] 0 rfl rfl (by decide)
      (fun xs h => YVal.noConfusion h),
    resolver_mismatch_totality.2.2.2.1 _ "5" 5 [] 0 rfl rfl (by decide)
      (by decide),
    resolver_mismatch_totality.2.2.2.2.1 _ 0 (fun xs h => YVal.noConfusion h)
      (fun m h => YVal.noConfusion h),
    resolver_mismatch_totality.2.2.2.2.2.1 _ ["k"] 0 (by decide)
      (fun xs h => YVal.noConfusion h),
    resolver_mismatch_totality.2.2.2.2.2.2.1 _ ["k"] 0 (by decide) (by decide),
    resolver_mismatch_totality.2.2.2.2.2.2.2.1 _ "a=b"
      (fun xs h => YVal.noConfusion h),
    resolver_mismatch_totality.2.2.2.2.2.2.2.2.1 _ "nonsense" rfl,
    resolver_mismatch_totality.2.2.2.2.2.2.2.2.2 _ "3" (Or.inl rfl)⟩

/-- Witness for C3 (amended): a numeric comparison computes the sign (also
against an infinite literal), and an unparseable subject fails `>` while
satisfying `>=`. -/
theorem ordering_widens_and_defaults_witness :
    compareNumbers (.yint 68) "50"
      = (if gfLt (.finite 50) (.finite 68) then 1
         else if gfLt (.finite 68) (.finite 50) then -1 else 0)
    ∧ compareNumbers (.yint 5) "inf"
      = (if gfLt (.inf false) (.finite 5) then 1
         else if gfLt (.finite 5) (.inf false) then -1 else 0)
    ∧ (compareNumbers (.ystr "oops") "3" = 0
      ∧ matchesCondition (.ystr "oops") ">" "3" = false
      ∧ matchesCondition (.ystr "oops") "<" "3" = false
      ∧ matchesCondition (.ystr "oops") ">=" "3" = true
      ∧ matchesCondition (.ystr "oops") "<=" "3" = true) :=
  ⟨ordering_widens_and_defaults.1 (.yint 68) "50" (.finite 68) (.finite 50)
      rfl rfl,
    ordering_widens_and_defaults.1 (.yint 5) "inf" (.finite 5) (.inf false)
      rfl rfl,
    ordering_widens_and_defaults.2.1 (.ystr "oops") "3" (Or.inl rfl)⟩

end GYaml

